import Mathlib

/-!
Shallow embedding of the ride-pooling backend's core logic
(`src/services/price.service.js`, `src/workers/batch.worker.js`,
`src/controllers/ride-request.controller.js`, `src/queue/ride.queue.js`)
and verification of the specification's claims about it.

Numbers are modelled as `ℚ` (JS numbers, used here only on exact decimal
values), counts as `ℤ`/`ℕ`.  The haversine `calculateDistance` is
floating-point trigonometry; every claim under scrutiny is independent of
the concrete metric, so the matching pipeline is parameterised by an
abstract distance function `dist : Coord → Coord → ℚ`, exactly where the
source passes results of `calculateDistance` around.
-/

namespace RidePooling

/-- JS `Math.ceil(x * 100) / 100` — round up to the cent. -/
def jsCeil2 (x : ℚ) : ℚ := (⌈x * 100⌉ : ℚ) / 100

/-- JS `Math.round(x)` (half goes toward positive infinity). -/
def jsRound (x : ℚ) : ℤ := ⌊x + 1 / 2⌋

/-- `round(value, decimals)` from price.service.js:
`Math.round(value * 10^d) / 10^d`. -/
def roundTo (decimals : ℕ) (value : ℚ) : ℚ :=
  (jsRound (value * 10 ^ decimals) : ℚ) / 10 ^ decimals

/-- A latitude/longitude pair. -/
structure Coord where
  latitude : ℚ
  longitude : ℚ
deriving DecidableEq, Repr

/-- The fields of a ride request consumed by the matching engine
(`RideRequest` documents round-tripped through the Redis queue). -/
structure Req where
  rid : ℕ
  pickupLocation : Coord
  dropoffLocation : Coord
  passengers : ℤ
  luggage : ℤ
  maxDetour : ℚ
deriving DecidableEq, Repr

/-- JS `r.passengers || 1` (`0` is falsy, so it also falls back to 1). -/
def passengersOr1 (r : Req) : ℤ := if r.passengers = 0 then 1 else r.passengers

/-- JS `req2.maxDetour || MAX_DETOUR_MINUTES` — the effective detour bound:
10 when the field is unset (modelled, as in JS, by the falsy value 0). -/
def effectiveMaxDetour (r : Req) : ℚ := if r.maxDetour = 0 then 10 else r.maxDetour

/-- `calculateEstimatedTime(distance)`: `Math.ceil(distance / 50 * 60)`,
minutes at 50 km/h. -/
def calculateEstimatedTime (distance : ℚ) : ℤ := ⌈distance / 50 * 60⌉

/-- `areRequestsCompatible(req1, req2, currentPoolSeats)` — the four
pairwise checks: seats, luggage, detour, pickup proximity. -/
def areRequestsCompatible (dist : Coord → Coord → ℚ) (req1 req2 : Req)
    (currentPoolSeats : ℤ) : Bool :=
  if req2.passengers > currentPoolSeats then false
  else
    let totalLuggage := req1.luggage + req2.luggage
    let totalPassengers := passengersOr1 req1 + passengersOr1 req2
    if totalLuggage > totalPassengers * 10 then false
    else
      let pickupDistance := dist req1.pickupLocation req2.pickupLocation
      let dropoffDistance := dist req1.dropoffLocation req2.dropoffLocation
      let detourMinutes := calculateEstimatedTime (pickupDistance + dropoffDistance)
      if (detourMinutes : ℚ) > effectiveMaxDetour req2 then false
      else
        let directDistance := dist req1.pickupLocation req2.pickupLocation
        if directDistance > 2 then false
        else true

/-- `poolRequests.every(req => areRequestsCompatible(req, currentReq,
availableSeats))` — the pool-level acceptance test of matchRequests. -/
def accepts (dist : Coord → Coord → ℚ) (poolRequests : List Req)
    (currentReq : Req) (availableSeats : ℤ) : Bool :=
  poolRequests.all fun req => areRequestsCompatible dist req currentReq availableSeats

/-- `calculatePoolRouteDistance(requests)`: the sum of each member's own
pickup→dropoff distance plus the chained dropoff→next-pickup distances. -/
def calculatePoolRouteDistance (dist : Coord → Coord → ℚ) (requests : List Req) : ℚ :=
  (requests.map fun r => dist r.pickupLocation r.dropoffLocation).sum +
    ((requests.zip requests.tail).map fun p =>
      dist p.1.dropoffLocation p.2.pickupLocation).sum

/-- `calculatePoolFare(distance, duration)` — fare plus the in-function
peak-hour surge read from the wall clock (`new Date().getHours()`),
made explicit as the `hour` argument; ceiling-rounded to the cent. -/
def calculatePoolFare (hour : ℕ) (distance : ℚ) (duration : ℤ) : ℚ :=
  let fare := 5.0 + distance * 0.5 + (duration : ℚ) * 0.25
  let fare := if (9 ≤ hour ∧ hour ≤ 11) ∨ (17 ≤ hour ∧ hour ≤ 19) then fare * 1.5 else fare
  jsCeil2 fare

/-- The sort key of matchRequests:
`Math.abs(pickupLocation.latitude) + Math.abs(pickupLocation.longitude)`. -/
def sortKey (r : Req) : ℚ := |r.pickupLocation.latitude| + |r.pickupLocation.longitude|

/-- Stable insertion used to model the (stable, per ES2019) JS
`Array.prototype.sort` on `sortKey`. -/
def insertByKey (r : Req) : List Req → List Req
  | [] => [r]
  | x :: xs => if sortKey r ≤ sortKey x then r :: x :: xs else x :: insertByKey r xs

/-- `[...requests].sort((a, b) => distA - distB)` — stable sort ascending
by `sortKey`. -/
def sortByKey (l : List Req) : List Req := l.foldr insertByKey []

/-- The inner loop of matchRequests: scan the candidates in order, adding
each one that is compatible with all current members and fits the remaining
seats; decrement seats on acceptance and stop early when seats reach zero.
Returns the finished member list and the unclaimed candidates in order. -/
def scanPool (dist : Coord → Coord → ℚ) :
    List Req → List Req → ℤ → List Req × List Req
  | [], poolRequests, _ => (poolRequests, [])
  | c :: rest, poolRequests, availableSeats =>
    if accepts dist poolRequests c availableSeats ∧ c.passengers ≤ availableSeats then
      let seats' := availableSeats - c.passengers
      if seats' ≤ 0 then (poolRequests ++ [c], rest)
      else scanPool dist rest (poolRequests ++ [c]) seats'
    else
      let pr := scanPool dist rest poolRequests availableSeats
      (pr.1, c :: pr.2)

theorem scanPool_snd_length (dist : Coord → Coord → ℚ) (cand : List Req) :
    ∀ (poolRequests : List Req) (seats : ℤ),
      (scanPool dist cand poolRequests seats).2.length ≤ cand.length := by
  induction cand with
  | nil => intro p s; simp [scanPool]
  | cons c rest ih =>
    intro p s
    simp only [scanPool]
    split
    · split
      · simp
      · exact le_trans (ih _ _) (Nat.le_succ _)
    · simpa using Nat.succ_le_succ (ih _ _)

/-- The outer loop of matchRequests: each unclaimed request in sorted order
seeds a pool with `4 - (passengers || 1)` seats left, then the inner scan
fills it from the later unclaimed requests. -/
def buildPools (dist : Coord → Coord → ℚ) : List Req → List (List Req)
  | [] => []
  | seed :: rest =>
    let pr := scanPool dist rest [seed] (4 - passengersOr1 seed)
    pr.1 :: buildPools dist pr.2
termination_by l => l.length
decreasing_by
  simp only [List.length_cons]
  exact Nat.lt_succ_of_le (scanPool_snd_length _ _ _ _)

/-- The pool object matchRequests builds for one member group. -/
structure Pool where
  requests : List ℕ
  totalPassengers : ℤ
  totalLuggage : ℤ
  estimatedDistance : ℚ
  estimatedDuration : ℤ
  pickupLocation : Coord
  dropoffLocation : Coord
  baseFare : ℚ
  costPerPerson : ℚ
deriving DecidableEq, Repr

/-- The pool record matchRequests creates from a finished member list. -/
def mkPool (dist : Coord → Coord → ℚ) (hour : ℕ) (poolRequests : List Req) : Pool :=
  let routeDistance := calculatePoolRouteDistance dist poolRequests
  let estimatedDuration := calculateEstimatedTime routeDistance
  { requests := poolRequests.map Req.rid
    totalPassengers := (poolRequests.map passengersOr1).sum
    totalLuggage := (poolRequests.map Req.luggage).sum
    estimatedDistance := routeDistance
    estimatedDuration := estimatedDuration
    pickupLocation := ((poolRequests.map Req.pickupLocation).headD ⟨0, 0⟩)
    dropoffLocation := ((poolRequests.map Req.dropoffLocation).getLastD ⟨0, 0⟩)
    baseFare := calculatePoolFare hour routeDistance estimatedDuration
    costPerPerson :=
      jsCeil2 (calculatePoolFare hour routeDistance estimatedDuration / poolRequests.length) }

/-- `matchRequests(requests)` — the pure matching core: sort by the pickup
proxy key, greedily group, and emit one pool record per group.  The wall
clock consulted by `calculatePoolFare` is the explicit `hour`. -/
def matchRequests (dist : Coord → Coord → ℚ) (hour : ℕ) (requests : List Req) :
    List Pool :=
  if requests.isEmpty then []
  else (buildPools dist (sortByKey requests)).map (mkPool dist hour)

/-! ## Pricing (`calculatePrice` and friends, price.service.js) -/

/-- `calculateSurgeMultiplier(queueSize)` — demand-driven step function. -/
def calculateSurgeMultiplier (queueSize : ℕ) : ℚ :=
  if queueSize < 5 then 1.0
  else if queueSize < 10 then 1.1
  else if queueSize < 20 then 1.25
  else if queueSize < 50 then 1.5
  else min 2.0 (1.0 + (queueSize : ℚ) / 100)

/-- `calculateBaseFare(distance, duration)`:
`BASE_FARE + distance * PER_KM_RATE + duration * PER_MINUTE_RATE`. -/
def calculateBaseFare (distance duration : ℚ) : ℚ :=
  5.0 + distance * 0.5 + duration * 0.25

/-- The multiplier object of `getMultipliers` (peak-hour and weekend flags
made explicit in place of the wall-clock reads). -/
structure Multipliers where
  peakHour : ℚ
  weekend : ℚ
  surge : ℚ
  poolDiscount : ℚ
  total : ℚ
deriving DecidableEq, Repr

/-- `getMultipliers(queueSize, isPool)`. -/
def getMultipliers (isPeak isWknd : Bool) (queueSize : ℕ) (isPool : Bool) :
    Multipliers :=
  let peakHour := if isPeak then 1.5 else 1.0
  let weekend := if isWknd then 1.2 else 1.0
  let surge := calculateSurgeMultiplier queueSize
  let poolDiscount := if isPool then 0.75 else 1.0
  { peakHour := peakHour
    weekend := weekend
    surge := surge
    poolDiscount := poolDiscount
    total := peakHour * weekend * surge * poolDiscount }

/-- The rounded multiplier breakdown returned by `calculatePrice`. -/
structure MultiplierBreakdown where
  peakHour : ℚ
  weekend : ℚ
  surge : ℚ
  poolDiscount : ℚ
  weather : ℚ
  total : ℚ
deriving DecidableEq, Repr

/-- The `estimatedBreakdown` object of `calculatePrice`. -/
structure EstimatedBreakdown where
  baseFare : ℚ
  surgeCharge : ℚ
  poolSavings : ℚ
  weatherCharge : ℚ
deriving DecidableEq, Repr

/-- The full return object of `calculatePrice`. -/
structure PriceBreakdown where
  baseFare : ℚ
  distance : ℚ
  duration : ℚ
  multipliers : MultiplierBreakdown
  finalPrice : ℚ
  estimatedBreakdown : EstimatedBreakdown
deriving DecidableEq, Repr

/-- `calculatePrice(distance, duration, {queueSize, isPool,
weatherMultiplier})`, with the clock-dependent peak-hour/weekend flags
passed explicitly. -/
def calculatePrice (isPeak isWknd : Bool) (distance duration : ℚ)
    (queueSize : ℕ) (isPool : Bool) (weatherMultiplier : ℚ) : PriceBreakdown :=
  let baseFare := calculateBaseFare distance duration
  let m := getMultipliers isPeak isWknd queueSize isPool
  let total := m.total * weatherMultiplier
  let finalPrice := baseFare * total
  { baseFare := roundTo 2 baseFare
    distance := roundTo 1 distance
    duration := duration
    multipliers :=
      { peakHour := roundTo 2 m.peakHour
        weekend := roundTo 2 m.weekend
        surge := roundTo 2 m.surge
        poolDiscount := roundTo 2 m.poolDiscount
        weather := roundTo 2 weatherMultiplier
        total := roundTo 2 total }
    finalPrice := roundTo 2 finalPrice
    estimatedBreakdown :=
      { baseFare := roundTo 2 baseFare
        surgeCharge := roundTo 2 (baseFare * (m.surge - 1))
        poolSavings := if isPool then roundTo 2 (baseFare * 0.25) else 0
        weatherCharge := roundTo 2 (baseFare * (weatherMultiplier - 1)) } }

/-! ## Persistence, batch worker and cancellation
(`batch.worker.js`, `ride.queue.js`, `ride-request.controller.js`,
models `RideRequest.js` / `RidePool.js`). -/

/-- A stored `RideRequest` document (the fields the worker and the
cancellation path touch).  `status` is a string, as in the source, because
the worker writes `"ASSIGNED"` while the controller compares against
lowercase literals. -/
structure DbRequest where
  rid : ℕ
  userId : ℕ
  passengers : ℤ
  luggage : ℤ
  status : String
  poolId : Option ℕ
deriving DecidableEq, Repr

/-- A stored `RidePool` document.  `requests` defaults to the empty array
when `RidePool.create` is called without it, as in `batch.worker.js`. -/
structure DbPool where
  pid : ℕ
  status : String
  requests : List ℕ
deriving DecidableEq, Repr

/-- The shared state: MongoDB collections, the Redis list `ride:queue`
(JSON snapshots of requests), and fresh-identifier counters standing in
for ObjectId generation. -/
structure Store where
  requests : List DbRequest
  pools : List DbPool
  queue : List DbRequest
  nextReqId : ℕ
  nextPoolId : ℕ
deriving DecidableEq, Repr

def emptyStore : Store :=
  { requests := [], pools := [], queue := [], nextReqId := 0, nextPoolId := 0 }

/-- `RideRequest.updateOne({_id: id}, ...)`: MongoDB updates the (unique,
`_id`-indexed) matching document, here expressed as a guarded map. -/
def updateById (reqs : List DbRequest) (id : ℕ) (f : DbRequest → DbRequest) :
    List DbRequest :=
  reqs.map fun r => if r.rid = id then f r else r

/-- `dequeueBatch(5)`: pop up to five queue entries, FIFO. -/
def dequeueBatch (s : Store) : List DbRequest × Store :=
  (s.queue.take 5, { s with queue := s.queue.drop 5 })

/-- The per-request write of the worker loop:
`RideRequest.updateOne({_id: req._id}, {status: "ASSIGNED", poolId})`.
Note the filter carries no `status: "pending"` guard. -/
def assignAll (batch : List DbRequest) (poolId : ℕ) (reqs : List DbRequest) :
    List DbRequest :=
  batch.foldl
    (fun rs q => updateById rs q.rid
      fun r => { r with status := "ASSIGNED", poolId := some poolId })
    reqs

/-- The status enum of the RidePool schema (RidePool.js). -/
def ridePoolStatusEnum : List String := ["pending", "active", "completed", "cancelled"]

/-- `RidePool.create(doc)`: Mongoose validates the document on create
(`Model.create` is `new Model(doc).save()` and `validateBeforeSave`
defaults to true), so a status outside the schema's enum rejects with a
ValidationError and inserts nothing. -/
def ridePoolCreate (pool : DbPool) (s : Store) : Option Store :=
  if pool.status ∈ ridePoolStatusEnum
  then some { s with pools := s.pools ++ [pool] }
  else none

/-- The commit phase of a worker tick: on a non-empty batch it calls
`RidePool.create({status: "ASSIGNED"})` and would then point every batch
member at the new pool.  The create always rejects — "ASSIGNED" is not
in the RidePool status enum — and the worker's try/catch swallows the
ValidationError, so the phase mutates nothing and the updateOne loop is
never reached.  The post-create path is kept for faithfulness to the
source text but is unreachable. -/
def commitBatch (batch : List DbRequest) (s : Store) : Store :=
  if batch.isEmpty then s
  else
    match ridePoolCreate { pid := s.nextPoolId, status := "ASSIGNED", requests := [] } s with
    | none => s
    | some s' =>
      { s' with
        nextPoolId := s.nextPoolId + 1
        requests := assignAll batch s.nextPoolId s'.requests }

/-- One `setInterval` tick of batch.worker.js: drain, then commit. -/
def workerTick (s : Store) : Store :=
  let pr := dequeueBatch s
  commitBatch pr.1 pr.2

/-- Result of `createRideRequest`. -/
inductive SubmitResult where
  | created (requestId : ℕ)
  | validationError
deriving DecidableEq, Repr

/-- `createRideRequest`: validate bounds, create the document with status
`"pending"` and no pool, and push its snapshot onto `ride:queue`. -/
def createRideRequest (userId : ℕ) (passengers luggage : ℤ) (s : Store) :
    SubmitResult × Store :=
  if passengers < 1 ∨ passengers > 4 then (.validationError, s)
  else if luggage < 0 ∨ luggage > 10 then (.validationError, s)
  else
    let r : DbRequest :=
      { rid := s.nextReqId, userId := userId, passengers := passengers,
        luggage := luggage, status := "pending", poolId := none }
    (.created r.rid,
      { s with
        requests := s.requests ++ [r]
        queue := s.queue ++ [r]
        nextReqId := s.nextReqId + 1 })

/-- Result of `cancelRideRequest`. -/
inductive CancelResult where
  | notFound
  | conflict (status : String)
  | success
deriving DecidableEq, Repr

/-- `cancelRideRequest(requestId)`: 404 when absent; 409 when the status is
one of `"assigned" | "completed" | "cancelled"`; otherwise set the status
to `"cancelled"` and remove the first matching queue snapshot
(`lrem` by value after a linear scan). -/
def cancelRideRequest (requestId : ℕ) (s : Store) : CancelResult × Store :=
  match s.requests.find? (fun r => r.rid = requestId) with
  | none => (.notFound, s)
  | some r =>
    if r.status = "assigned" ∨ r.status = "completed" ∨ r.status = "cancelled" then
      (.conflict r.status, s)
    else
      let s' := { s with
        requests := updateById s.requests requestId fun q => { q with status := "cancelled" } }
      let s'' :=
        match s'.queue.find? (fun it => it.rid = requestId) with
        | none => s'
        | some item => { s' with queue := s'.queue.filter (fun it => it ≠ item) }
      (.success, s'')

/-- The core operations that race in the system: request submission, the
timer-driven worker tick, and cancellation. -/
inductive Op where
  | submit (userId : ℕ) (passengers luggage : ℤ)
  | tick
  | cancel (requestId : ℕ)
deriving DecidableEq, Repr

/-- Apply one core operation to the shared state. -/
def applyOp (s : Store) : Op → Store
  | .submit u p l => (createRideRequest u p l s).2
  | .tick => workerTick s
  | .cancel rid => (cancelRideRequest rid s).2

/-- Run a sequence of core operations. -/
def runOps (ops : List Op) (s : Store) : Store := ops.foldl applyOp s

/-- Invariant of every state reachable by the core operations: no pool
record exists, no request carries a pool reference, and every status is
"pending" or "cancelled". -/
def coreInv (s : Store) : Prop :=
  s.pools = [] ∧
  ∀ r ∈ s.requests, r.poolId = none ∧ (r.status = "pending" ∨ r.status = "cancelled")

/-! ## Helper lemmas about the matching pipeline -/

theorem insertByKey_perm (r : Req) (l : List Req) :
    List.Perm (insertByKey r l) (r :: l) := by
  induction l with
  | nil => exact List.Perm.refl _
  | cons x xs ih =>
    simp only [insertByKey]
    split
    · exact List.Perm.refl _
    · exact (ih.cons x).trans (List.Perm.swap r x xs)

theorem sortByKey_perm (l : List Req) : List.Perm (sortByKey l) l := by
  induction l with
  | nil => exact List.Perm.refl _
  | cons x xs ih => exact (insertByKey_perm x (sortByKey xs)).trans (ih.cons x)

theorem scanPool_perm (dist : Coord → Coord → ℚ) (cand : List Req) :
    ∀ (pool : List Req) (seats : ℤ),
      List.Perm ((scanPool dist cand pool seats).1 ++ (scanPool dist cand pool seats).2)
        (pool ++ cand) := by
  induction cand with
  | nil => intro pool seats; simp [scanPool]
  | cons c rest ih =>
    intro pool seats
    simp only [scanPool]
    split
    · split
      · simp [List.append_assoc]
      · simpa [List.append_assoc] using ih (pool ++ [c]) _
    · exact List.perm_middle.trans
        (((ih pool seats).cons c).trans List.perm_middle.symm)

theorem buildPools_flatten_perm (dist : Coord → Coord → ℚ) (l : List Req) :
    List.Perm (buildPools dist l).flatten l := by
  induction l using buildPools.induct dist with
  | case1 => simp [buildPools]
  | case2 seed rest pr ih =>
    rw [buildPools]
    simp only [List.flatten_cons]
    exact (List.Perm.append_left pr.1 ih).trans (scanPool_perm dist rest [seed] _)

theorem mkPool_requests (dist : Coord → Coord → ℚ) (hour : ℕ) (g : List Req) :
    (mkPool dist hour g).requests = g.map Req.rid := rfl

/-- The member-identifier lists of the output pools, flattened, are a
permutation of the input identifiers. -/
theorem matchRequests_flatten_perm (dist : Coord → Coord → ℚ) (hour : ℕ)
    (B : List Req) :
    List.Perm ((matchRequests dist hour B).map Pool.requests).flatten
      (B.map Req.rid) := by
  by_cases hB : B.isEmpty
  · cases B with
    | nil => simp [matchRequests]
    | cons x xs => simp [List.isEmpty] at hB
  · rw [matchRequests, if_neg hB, List.map_map]
    have hmap : (Pool.requests ∘ mkPool dist hour) = List.map Req.rid := by
      funext g; rfl
    rw [hmap, ← List.map_flatten]
    exact ((buildPools_flatten_perm dist (sortByKey B)).map Req.rid).trans
      ((sortByKey_perm B).map Req.rid)

theorem countP_eq_one_of_nodup_flatten {L : List (List ℕ)} {x : ℕ}
    (hnd : L.flatten.Nodup) (hx : x ∈ L.flatten) :
    L.countP (fun l => decide (x ∈ l)) = 1 := by
  induction L with
  | nil => simp at hx
  | cons l L ih =>
    rw [List.flatten_cons] at hnd hx
    rw [List.countP_cons]
    rcases List.nodup_append.mp hnd with ⟨_, hndL, hdisj⟩
    rcases List.mem_append.mp hx with hxl | hxL
    · have hz : L.countP (fun l => decide (x ∈ l)) = 0 := by
        rw [List.countP_eq_zero]
        intro a ha
        simp only [decide_eq_true_eq]
        intro hxa
        exact hdisj hxl (List.mem_flatten.mpr ⟨a, ha, hxa⟩)
      simp [hz, hxl]
    · have hnl : x ∉ l := fun hxl => hdisj hxl hxL
      simp [ih hndL hxL, hnl]

theorem scanPool_skip_all (dist : Coord → Coord → ℚ) (cand : List Req) :
    ∀ (pool : List Req) (seats : ℤ) (r : Req), r ∈ pool →
      (∀ c ∈ cand, ∀ s, areRequestsCompatible dist r c s = false) →
      scanPool dist cand pool seats = (pool, cand) := by
  induction cand with
  | nil => intro pool seats r _ _; rfl
  | cons c rest ih =>
    intro pool seats r hr H
    have hfalse : ¬ (accepts dist pool c seats = true ∧ c.passengers ≤ seats) := by
      rintro ⟨hacc, -⟩
      have := List.all_eq_true.mp hacc r hr
      rw [H c (List.mem_cons_self c rest) seats] at this
      exact Bool.false_ne_true this
    rw [scanPool, if_neg hfalse, ih pool seats r hr
      (fun x hx => H x (List.mem_cons_of_mem c hx))]

theorem scanPool_never_claims (dist : Coord → Coord → ℚ) (cand : List Req) :
    ∀ (pool : List Req) (seats : ℤ) (r : Req), r ∈ cand →
      pool ≠ [] →
      (∀ m ∈ pool, m.rid ≠ r.rid) →
      (∀ m ∈ pool ++ cand, m.rid ≠ r.rid → ∀ s, areRequestsCompatible dist m r s = false) →
      (cand.map Req.rid).Nodup →
      r ∈ (scanPool dist cand pool seats).2 := by
  induction cand with
  | nil => intro pool seats r hr; exact absurd hr (List.not_mem_nil r)
  | cons c rest ih =>
    intro pool seats r hr hpne hpool H hnd
    by_cases hrc : r = c
    · subst hrc
      obtain ⟨m, hm⟩ := List.exists_mem_of_ne_nil pool hpne
      have hfalse : ¬ (accepts dist pool r seats = true ∧ r.passengers ≤ seats) := by
        rintro ⟨hacc, -⟩
        have := List.all_eq_true.mp hacc m hm
        rw [H m (List.mem_append_left _ hm) (hpool m hm) seats] at this
        exact Bool.false_ne_true this
      rw [scanPool, if_neg hfalse]
      exact List.mem_cons_self r _
    · have hrrest : r ∈ rest := (List.mem_cons.mp hr).resolve_left hrc
      have hcrid : c.rid ≠ r.rid := by
        rw [List.map_cons, List.nodup_cons] at hnd
        intro hc
        exact hnd.1 (hc ▸ List.mem_map_of_mem Req.rid hrrest)
      have hndrest : (rest.map Req.rid).Nodup := by
        rw [List.map_cons, List.nodup_cons] at hnd
        exact hnd.2
      rw [scanPool]
      by_cases hcond : accepts dist pool c seats = true ∧ c.passengers ≤ seats
      · rw [if_pos hcond]
        by_cases hfull : seats - c.passengers ≤ 0
        · rw [if_pos hfull]; exact hrrest
        · rw [if_neg hfull]
          refine ih (pool ++ [c]) _ r hrrest (by simp) ?_ ?_ hndrest
          · intro m hm
            rcases List.mem_append.mp hm with h | h
            · exact hpool m h
            · rw [List.mem_singleton.mp h]; exact hcrid
          · intro m hm
            refine H m ?_
            rcases List.mem_append.mp hm with h | h
            · rcases List.mem_append.mp h with h' | h'
              · exact List.mem_append_left _ h'
              · exact List.mem_append_right _
                  (List.mem_cons.mpr (Or.inl (List.mem_singleton.mp h')))
            · exact List.mem_append_right _ (List.mem_cons_of_mem c h)
      · rw [if_neg hcond]
        refine List.mem_cons_of_mem c (ih pool seats r hrrest hpne hpool ?_ hndrest)
        intro m hm
        refine H m ?_
        rcases List.mem_append.mp hm with h | h
        · exact List.mem_append_left _ h
        · exact List.mem_append_right _ (List.mem_cons_of_mem c h)

theorem buildPools_singleton (dist : Coord → Coord → ℚ) (l : List Req) (r : Req) :
    (l.map Req.rid).Nodup → r ∈ l →
    (∀ m ∈ l, m.rid ≠ r.rid →
      ∀ s, areRequestsCompatible dist r m s = false ∧
        areRequestsCompatible dist m r s = false) →
    [r] ∈ buildPools dist l := by
  induction l using buildPools.induct dist with
  | case1 => intro _ h; exact absurd h (List.not_mem_nil r)
  | case2 seed rest pr ih =>
    intro hnd hr H
    have hperm := scanPool_perm dist rest [seed] (4 - passengersOr1 seed)
    rw [buildPools]
    by_cases hsr : seed = r
    · subst hsr
      have hall : ∀ c ∈ rest, ∀ s, areRequestsCompatible dist seed c s = false := by
        intro c hc s
        have hcrid : c.rid ≠ seed.rid := by
          rw [List.map_cons, List.nodup_cons] at hnd
          intro h
          exact hnd.1 (h ▸ List.mem_map_of_mem Req.rid hc)
        exact (H c (List.mem_cons_of_mem seed hc) hcrid s).1
      have hscan := scanPool_skip_all dist rest [seed] (4 - passengersOr1 seed) seed
        (List.mem_singleton_self seed) hall
      exact List.mem_cons.mpr (Or.inl (by rw [hscan]))
    · have hrrest : r ∈ rest := (List.mem_cons.mp hr).resolve_left fun h => hsr h.symm
      have hseedrid : seed.rid ≠ r.rid := by
        rw [List.map_cons, List.nodup_cons] at hnd
        intro h
        exact hnd.1 (h ▸ List.mem_map_of_mem Req.rid hrrest)
      have hndrest : (rest.map Req.rid).Nodup := by
        rw [List.map_cons, List.nodup_cons] at hnd
        exact hnd.2
      have hrrem : r ∈ pr.2 := by
        refine scanPool_never_claims dist rest [seed] (4 - passengersOr1 seed) r hrrest
          (by simp) ?_ ?_ hndrest
        · intro m hm; rw [List.mem_singleton.mp hm]; exact hseedrid
        · intro m hm hmr s
          exact (H m (by simpa using hm) hmr s).2
      have hndrem : (pr.2.map Req.rid).Nodup := by
        have : ((pr.1 ++ pr.2).map Req.rid).Nodup :=
          (hperm.map Req.rid).nodup_iff.mpr (by simpa using hnd)
        rw [List.map_append] at this
        exact (List.nodup_append.mp this).2.1
      have Hrem : ∀ m ∈ pr.2, m.rid ≠ r.rid →
          ∀ s, areRequestsCompatible dist r m s = false ∧
            areRequestsCompatible dist m r s = false := by
        intro m hm
        have : m ∈ seed :: rest := by
          have := hperm.mem_iff.mp (List.mem_append_right pr.1 hm)
          simpa using this
        exact H m this
      exact List.mem_cons_of_mem _ (ih hndrem hrrem Hrem)

/-- Aggregate passenger count of a member list, as matchRequests computes
it (`reduce((sum, r) => sum + (r.passengers || 1), 0)`). -/
def sumP (l : List Req) : ℤ := (l.map passengersOr1).sum

/-- Aggregate luggage of a member list
(`reduce((sum, r) => sum + (r.luggage || 0), 0)`). -/
def sumL (l : List Req) : ℤ := (l.map Req.luggage).sum

theorem sumP_take_append {pool : List Req} {c : Req} {b : ℤ}
    (Hpool : ∀ n, sumP (pool.take n) ≤ b) (Hfull : sumP (pool ++ [c]) ≤ b) :
    ∀ n, sumP ((pool ++ [c]).take n) ≤ b := by
  intro n
  rcases le_or_lt n pool.length with h | h
  · rw [List.take_append_of_le_length h]; exact Hpool n
  · rw [List.take_of_length_le (by simp; omega)]; exact Hfull

theorem scanPool_sumP_le (dist : Coord → Coord → ℚ) (cand : List Req) :
    ∀ (pool : List Req) (seats : ℤ),
      (∀ c ∈ cand, 1 ≤ c.passengers) →
      (∀ n, sumP (pool.take n) ≤ 4) →
      sumP pool + seats ≤ 4 →
      ∀ n, sumP ((scanPool dist cand pool seats).1.take n) ≤ 4 := by
  induction cand with
  | nil => intro pool seats _ Hpool _ n; simp only [scanPool]; exact Hpool n
  | cons c rest ih =>
    intro pool seats Hcand Hpool Hinv n
    rw [scanPool]
    by_cases hcond : accepts dist pool c seats = true ∧ c.passengers ≤ seats
    · rw [if_pos hcond]
      have hc1 : 1 ≤ c.passengers := Hcand c (List.mem_cons_self c rest)
      have hor1 : passengersOr1 c = c.passengers := by
        unfold passengersOr1; split <;> omega
      have hsum : sumP (pool ++ [c]) = sumP pool + c.passengers := by
        simp [sumP, hor1]
      have hfull : sumP (pool ++ [c]) ≤ 4 := by
        rw [hsum]; have := hcond.2; omega
      by_cases hbreak : seats - c.passengers ≤ 0
      · rw [if_pos hbreak]; exact sumP_take_append Hpool hfull n
      · rw [if_neg hbreak]
        refine ih (pool ++ [c]) (seats - c.passengers)
          (fun x hx => Hcand x (List.mem_cons_of_mem c hx))
          (sumP_take_append Hpool hfull) (by rw [hsum]; omega) n
    · rw [if_neg hcond]
      exact ih pool seats (fun x hx => Hcand x (List.mem_cons_of_mem c hx)) Hpool Hinv n

theorem buildPools_mem_subset (dist : Coord → Coord → ℚ) (l : List Req) :
    ∀ g ∈ buildPools dist l, ∀ x ∈ g, x ∈ l := by
  intro g hg x hx
  exact (buildPools_flatten_perm dist l).mem_iff.mp
    (List.mem_flatten.mpr ⟨g, hg, hx⟩)

theorem buildPools_sumP_le (dist : Coord → Coord → ℚ) (l : List Req) :
    (∀ r ∈ l, 1 ≤ r.passengers ∧ r.passengers ≤ 4) →
    ∀ g ∈ buildPools dist l, ∀ n, sumP (g.take n) ≤ 4 := by
  induction l using buildPools.induct dist with
  | case1 => intro _ g hg; simp [buildPools] at hg
  | case2 seed rest pr ih =>
    intro hb g hg
    rw [buildPools] at hg
    rcases List.mem_cons.mp hg with hg | hg
    · subst hg
      have hseed := hb seed (List.mem_cons_self seed rest)
      have hor1 : passengersOr1 seed = seed.passengers := by
        unfold passengersOr1; split <;> omega
      refine scanPool_sumP_le dist rest [seed] (4 - passengersOr1 seed)
        (fun c hc => (hb c (List.mem_cons_of_mem seed hc)).1) ?_ ?_
      · intro n
        match n with
        | 0 => simp [sumP]
        | n + 1 => simp [sumP, hor1]; omega
      · simp [sumP, hor1]
    · refine ih ?_ g hg
      intro x hx
      refine hb x ?_
      have : x ∈ pr.1 ++ pr.2 := List.mem_append_right pr.1 hx
      have := (scanPool_perm dist rest [seed] (4 - passengersOr1 seed)).mem_iff.mp this
      simpa using this

theorem sumL_le_of_bounds (l : List Req)
    (hb : ∀ x ∈ l, 1 ≤ x.passengers ∧ x.luggage ≤ 10) :
    sumL l ≤ 10 * sumP l := by
  induction l with
  | nil => simp [sumL, sumP]
  | cons x t ih =>
    have hx := hb x (List.mem_cons_self x t)
    have h1 : x.luggage ≤ 10 * passengersOr1 x := by
      unfold passengersOr1; split <;> omega
    have ht := ih fun y hy => hb y (List.mem_cons_of_mem x hy)
    simp only [sumL, sumP, List.map_cons, List.sum_cons] at *
    omega

/-- The pairwise compatibility check, spelled out as the conjunction of
the four conditions it implements. -/
theorem areRequestsCompatible_iff (dist : Coord → Coord → ℚ) (req1 req2 : Req)
    (seats : ℤ) :
    areRequestsCompatible dist req1 req2 seats = true ↔
      (req2.passengers ≤ seats ∧
       req1.luggage + req2.luggage ≤ (passengersOr1 req1 + passengersOr1 req2) * 10 ∧
       (calculateEstimatedTime
          (dist req1.pickupLocation req2.pickupLocation +
           dist req1.dropoffLocation req2.dropoffLocation) : ℚ) ≤
         effectiveMaxDetour req2 ∧
       dist req1.pickupLocation req2.pickupLocation ≤ 2) := by
  unfold areRequestsCompatible
  split_ifs <;> simp_all

/-! ## Claim theorems -/

/-- C1: for every batch, matchRequests covers every input request exactly
once — the flattened member lists are a permutation of the input
identifiers; with distinct identifiers every request lands in exactly one
pool; and a request compatible with nobody gets a pool of one. -/
theorem matchRequests_coverage (dist : Coord → Coord → ℚ) (hour : ℕ)
    (B : List Req) :
    List.Perm ((matchRequests dist hour B).map Pool.requests).flatten
      (B.map Req.rid) ∧
    ((B.map Req.rid).Nodup →
      ∀ r ∈ B,
        (matchRequests dist hour B).countP (fun p => decide (r.rid ∈ p.requests)) = 1) ∧
    ((B.map Req.rid).Nodup →
      ∀ r ∈ B,
        (∀ m ∈ B, m.rid ≠ r.rid →
          ∀ s, areRequestsCompatible dist r m s = false ∧
            areRequestsCompatible dist m r s = false) →
        ∃ p ∈ matchRequests dist hour B, p.requests = [r.rid]) := by
  refine ⟨matchRequests_flatten_perm dist hour B, ?_, ?_⟩
  · intro hnd r hr
    have hperm := matchRequests_flatten_perm dist hour B
    have hnd' : ((matchRequests dist hour B).map Pool.requests).flatten.Nodup :=
      hperm.nodup_iff.mpr hnd
    have hx : r.rid ∈ ((matchRequests dist hour B).map Pool.requests).flatten :=
      hperm.mem_iff.mpr (List.mem_map_of_mem Req.rid hr)
    have hcount := countP_eq_one_of_nodup_flatten hnd' hx
    rw [List.countP_map] at hcount
    simpa [Function.comp] using hcount
  · intro hnd r hr H
    have hBne : ¬ B.isEmpty = true := by
      cases B with
      | nil => exact absurd hr (List.not_mem_nil r)
      | cons x xs => simp [List.isEmpty]
    have hnds : ((sortByKey B).map Req.rid).Nodup :=
      ((sortByKey_perm B).map Req.rid).nodup_iff.mpr hnd
    have hrs : r ∈ sortByKey B := (sortByKey_perm B).mem_iff.mpr hr
    have Hs : ∀ m ∈ sortByKey B, m.rid ≠ r.rid →
        ∀ s, areRequestsCompatible dist r m s = false ∧
          areRequestsCompatible dist m r s = false :=
      fun m hm => H m ((sortByKey_perm B).mem_iff.mp hm)
    have hmem := buildPools_singleton dist (sortByKey B) r hnds hrs Hs
    rw [matchRequests, if_neg hBne]
    exact ⟨mkPool dist hour [r], List.mem_map_of_mem (mkPool dist hour) hmem, rfl⟩

/-- C1 witness: a concrete two-request batch in which the two requests are
mutually incompatible (pickups 3 km apart, over the 2 km proximity
threshold); the count clause and the singleton-pool clause are discharged
at that input. -/
theorem matchRequests_coverage_witness :
    (matchRequests (fun a b => if a = b then 0 else 3) 12
        [⟨1, ⟨0, 0⟩, ⟨0, 0⟩, 1, 0, 10⟩, ⟨2, ⟨3, 3⟩, ⟨3, 3⟩, 1, 0, 10⟩]).countP
      (fun p => decide ((1 : ℕ) ∈ p.requests)) = 1 ∧
    ∃ p ∈ matchRequests (fun a b => if a = b then 0 else 3) 12
        [⟨1, ⟨0, 0⟩, ⟨0, 0⟩, 1, 0, 10⟩, ⟨2, ⟨3, 3⟩, ⟨3, 3⟩, 1, 0, 10⟩],
      p.requests = [1] := by
  have hincompat : ∀ s : ℤ,
      areRequestsCompatible (fun a b => if a = b then 0 else 3)
        ⟨1, ⟨0, 0⟩, ⟨0, 0⟩, 1, 0, 10⟩ ⟨2, ⟨3, 3⟩, ⟨3, 3⟩, 1, 0, 10⟩ s = false ∧
      areRequestsCompatible (fun a b => if a = b then 0 else 3)
        ⟨2, ⟨3, 3⟩, ⟨3, 3⟩, 1, 0, 10⟩ ⟨1, ⟨0, 0⟩, ⟨0, 0⟩, 1, 0, 10⟩ s = false := by
    intro s
    constructor <;>
      · rw [Bool.eq_false_iff]
        intro hcontra
        have h4 := ((areRequestsCompatible_iff _ _ _ _).mp hcontra).2.2.2
        simp only [Coord.mk.injEq] at h4
        norm_num at h4
  constructor
  · exact (matchRequests_coverage (fun a b => if a = b then 0 else 3) 12
      [⟨1, ⟨0, 0⟩, ⟨0, 0⟩, 1, 0, 10⟩, ⟨2, ⟨3, 3⟩, ⟨3, 3⟩, 1, 0, 10⟩]).2.1
      (by simp) ⟨1, ⟨0, 0⟩, ⟨0, 0⟩, 1, 0, 10⟩ (List.mem_cons_self _ _)
  · refine (matchRequests_coverage (fun a b => if a = b then 0 else 3) 12
      [⟨1, ⟨0, 0⟩, ⟨0, 0⟩, 1, 0, 10⟩, ⟨2, ⟨3, 3⟩, ⟨3, 3⟩, 1, 0, 10⟩]).2.2
      (by simp) ⟨1, ⟨0, 0⟩, ⟨0, 0⟩, 1, 0, 10⟩ (List.mem_cons_self _ _) ?_
    intro m hm hmr s
    rcases List.mem_cons.mp hm with h | h
    · exact absurd (congrArg Req.rid h) hmr
    · have hm2 : m = ⟨2, ⟨3, 3⟩, ⟨3, 3⟩, 1, 0, 10⟩ := by simpa using h
      subst hm2
      exact ⟨(hincompat s).1, (hincompat s).2⟩

/-- C2: if every request in the batch satisfies the admission bounds
(1 ≤ passengers ≤ 4, 0 ≤ luggage ≤ 10), every output pool satisfies
aggregate passengers ≤ 4 and aggregate luggage ≤ 10 × aggregate
passengers, and both caps already hold for every intermediate stage of a
pool's member list (every `take`-prefix, i.e. at each acceptance and at
close). -/
theorem matchRequests_capacity (dist : Coord → Coord → ℚ) (hour : ℕ)
    (B : List Req)
    (hb : ∀ r ∈ B, 1 ≤ r.passengers ∧ r.passengers ≤ 4 ∧
      0 ≤ r.luggage ∧ r.luggage ≤ 10) :
    (∀ p ∈ matchRequests dist hour B,
      p.totalPassengers ≤ 4 ∧ p.totalLuggage ≤ 10 * p.totalPassengers) ∧
    (∀ g ∈ buildPools dist (sortByKey B), ∀ n,
      sumP (g.take n) ≤ 4 ∧ sumL (g.take n) ≤ 10 * sumP (g.take n)) := by
  have hbs : ∀ r ∈ sortByKey B, 1 ≤ r.passengers ∧ r.passengers ≤ 4 ∧
      0 ≤ r.luggage ∧ r.luggage ≤ 10 :=
    fun r hr => hb r ((sortByKey_perm B).mem_iff.mp hr)
  have hpre : ∀ g ∈ buildPools dist (sortByKey B), ∀ n,
      sumP (g.take n) ≤ 4 ∧ sumL (g.take n) ≤ 10 * sumP (g.take n) := by
    intro g hg n
    have hmem : ∀ x ∈ g.take n, x ∈ sortByKey B :=
      fun x hx => buildPools_mem_subset dist (sortByKey B) g hg x (List.take_subset n g hx)
    refine ⟨buildPools_sumP_le dist (sortByKey B)
      (fun r hr => ⟨(hbs r hr).1, (hbs r hr).2.1⟩) g hg n, ?_⟩
    exact sumL_le_of_bounds (g.take n)
      fun x hx => ⟨(hbs x (hmem x hx)).1, (hbs x (hmem x hx)).2.2.2⟩
  refine ⟨?_, hpre⟩
  intro p hp
  by_cases hBe : B.isEmpty = true
  · rw [matchRequests, if_pos hBe] at hp
    exact absurd hp (List.not_mem_nil p)
  · rw [matchRequests, if_neg hBe] at hp
    obtain ⟨g, hg, rfl⟩ := List.mem_map.mp hp
    have := hpre g hg g.length
    rwa [List.take_length] at this

/-- C2 witness: the capacity bounds evaluated on a concrete one-request
batch (2 passengers, 5 luggage units). -/
theorem matchRequests_capacity_witness :
    (mkPool (fun _ _ => 0) 12 [⟨1, ⟨0, 0⟩, ⟨0, 0⟩, 2, 5, 10⟩]).totalPassengers ≤ 4 ∧
    (mkPool (fun _ _ => 0) 12 [⟨1, ⟨0, 0⟩, ⟨0, 0⟩, 2, 5, 10⟩]).totalLuggage ≤
      10 * (mkPool (fun _ _ => 0) 12 [⟨1, ⟨0, 0⟩, ⟨0, 0⟩, 2, 5, 10⟩]).totalPassengers :=
  (matchRequests_capacity (fun _ _ => 0) 12 [⟨1, ⟨0, 0⟩, ⟨0, 0⟩, 2, 5, 10⟩]
      (by norm_num)).1
    (mkPool (fun _ _ => 0) 12 [⟨1, ⟨0, 0⟩, ⟨0, 0⟩, 2, 5, 10⟩])
    (by simp [matchRequests, sortByKey, insertByKey, buildPools, scanPool])

/-- C6: the pool-level acceptance test returns true exactly when all four
checks (seats, luggage, detour against the effective maxDetour, 2 km
pickup proximity) hold against every existing member, and its boolean
result is invariant under reordering of the member list. -/
theorem accepts_spec (dist : Coord → Coord → ℚ) :
    (∀ (pool : List Req) (c : Req) (seats : ℤ),
      accepts dist pool c seats = true ↔
        ∀ m ∈ pool,
          c.passengers ≤ seats ∧
          m.luggage + c.luggage ≤ (passengersOr1 m + passengersOr1 c) * 10 ∧
          (calculateEstimatedTime
            (dist m.pickupLocation c.pickupLocation +
             dist m.dropoffLocation c.dropoffLocation) : ℚ) ≤ effectiveMaxDetour c ∧
          dist m.pickupLocation c.pickupLocation ≤ 2) ∧
    (∀ (pool pool' : List Req) (c : Req) (seats : ℤ), List.Perm pool pool' →
      accepts dist pool c seats = accepts dist pool' c seats) := by
  constructor
  · intro pool c seats
    rw [accepts, List.all_eq_true]
    exact forall_congr' fun m => forall_congr' fun hm =>
      areRequestsCompatible_iff dist m c seats
  · intro pool pool' c seats hperm
    rw [Bool.eq_iff_iff, accepts, accepts, List.all_eq_true, List.all_eq_true]
    exact ⟨fun h m hm => h m (hperm.mem_iff.mpr hm),
           fun h m hm => h m (hperm.mem_iff.mp hm)⟩

/-- C6 witness: order independence applied to a concrete two-member pool,
and the iff applied to a concrete acceptance. -/
theorem accepts_spec_witness :
    accepts (fun _ _ => 0)
        [⟨1, ⟨0, 0⟩, ⟨0, 0⟩, 1, 0, 10⟩, ⟨2, ⟨0, 0⟩, ⟨0, 0⟩, 1, 0, 10⟩]
        ⟨3, ⟨0, 0⟩, ⟨0, 0⟩, 1, 0, 10⟩ 2 =
      accepts (fun _ _ => 0)
        [⟨2, ⟨0, 0⟩, ⟨0, 0⟩, 1, 0, 10⟩, ⟨1, ⟨0, 0⟩, ⟨0, 0⟩, 1, 0, 10⟩]
        ⟨3, ⟨0, 0⟩, ⟨0, 0⟩, 1, 0, 10⟩ 2 :=
  (accepts_spec (fun _ _ => 0)).2
    [⟨1, ⟨0, 0⟩, ⟨0, 0⟩, 1, 0, 10⟩, ⟨2, ⟨0, 0⟩, ⟨0, 0⟩, 1, 0, 10⟩]
    [⟨2, ⟨0, 0⟩, ⟨0, 0⟩, 1, 0, 10⟩, ⟨1, ⟨0, 0⟩, ⟨0, 0⟩, 1, 0, 10⟩]
    ⟨3, ⟨0, 0⟩, ⟨0, 0⟩, 1, 0, 10⟩ 2 (List.Perm.swap _ _ _)

/-- C7 as stated is false on the code: the pool fare reads the wall clock
(`new Date().getHours()` inside calculatePoolFare), so two runs of the
cycle over an identical batch — here at hours 8 and 9 — produce different
fares (5 versus 7.5) and hence different results. -/
theorem matchRequests_rerun_counterexample :
    matchRequests (fun _ _ => 0) 8 [⟨1, ⟨0, 0⟩, ⟨0, 0⟩, 1, 0, 10⟩] ≠
      matchRequests (fun _ _ => 0) 9 [⟨1, ⟨0, 0⟩, ⟨0, 0⟩, 1, 0, 10⟩] := by
  simp only [matchRequests, sortByKey, insertByKey, List.foldr, buildPools, scanPool,
    mkPool, calculatePoolRouteDistance, calculatePoolFare, calculateEstimatedTime,
    jsCeil2, List.map, List.isEmpty]
  norm_num

/-- C7 amended: matchRequests is deterministic — re-evaluating it on the
same batch at the same clock hour gives the identical result — and the
groupings (member-identifier lists) are identical across runs regardless
of the hour; only the fares depend on the clock. -/
theorem matchRequests_deterministic (dist : Coord → Coord → ℚ) (h₁ h₂ : ℕ)
    (B : List Req) :
    matchRequests dist h₁ B = matchRequests dist h₁ B ∧
    (matchRequests dist h₁ B).map Pool.requests =
      (matchRequests dist h₂ B).map Pool.requests := by
  refine ⟨rfl, ?_⟩
  by_cases hBe : B.isEmpty = true
  · rw [matchRequests, matchRequests, if_pos hBe, if_pos hBe]
  · rw [matchRequests, matchRequests, if_neg hBe, if_neg hBe,
      List.map_map, List.map_map]
    have hcomp : ∀ h : ℕ,
        Pool.requests ∘ mkPool dist h = fun g : List Req => g.map Req.rid :=
      fun h => rfl
    rw [hcomp h₁, hcomp h₂]

/-- C8 as stated is false on the code: `calculatePrice` rounds the final
price with `Math.round` (nearest cent), not with a ceiling.  At distance
0.008 km, duration 0, and all multipliers 1, the product is 5.004: the
code returns 5.00, the claimed ceiling would be 5.01. -/
theorem calculatePrice_ceiling_counterexample :
    (calculatePrice false false 0.008 0 0 false 1).finalPrice ≠
      jsCeil2 (calculateBaseFare 0.008 0 *
        ((getMultipliers false false 0 false).total * 1)) := by
  have hceil : (⌈(2502 : ℚ) / 5⌉ : ℤ) = 501 := by
    rw [Int.ceil_eq_iff]
    norm_num
  simp only [calculatePrice, getMultipliers, calculateBaseFare,
    calculateSurgeMultiplier, roundTo, jsRound, jsCeil2]
  norm_num
  rw [hceil]
  norm_num

/-- C8 amended: the final price equals baseFare × the product of all
multipliers (peak, weekend, surge, pool discount, weather) rounded to the
nearest cent via JS `Math.round`, not rounded up. -/
theorem calculatePrice_finalPrice (isPeak isWknd : Bool) (d t : ℚ) (qs : ℕ)
    (isPool : Bool) (w : ℚ) :
    (calculatePrice isPeak isWknd d t qs isPool w).finalPrice =
      roundTo 2 (calculateBaseFare d t *
        ((if isPeak then (1.5 : ℚ) else 1.0) * (if isWknd then (1.2 : ℚ) else 1.0) *
          calculateSurgeMultiplier qs * (if isPool then (0.75 : ℚ) else 1.0) * w)) :=
  rfl

/-- C9: the surge multiplier takes the claimed value on each queue-size
band, is monotone in the queue size, and equals 1.6 at size 60. -/
theorem calculateSurgeMultiplier_spec :
    (∀ s : ℕ, s < 5 → calculateSurgeMultiplier s = 1.0) ∧
    (∀ s : ℕ, 5 ≤ s → s < 10 → calculateSurgeMultiplier s = 1.1) ∧
    (∀ s : ℕ, 10 ≤ s → s < 20 → calculateSurgeMultiplier s = 1.25) ∧
    (∀ s : ℕ, 20 ≤ s → s < 50 → calculateSurgeMultiplier s = 1.5) ∧
    (∀ s : ℕ, 50 ≤ s → calculateSurgeMultiplier s = min 2.0 (1.0 + (s : ℚ) / 100)) ∧
    Monotone calculateSurgeMultiplier ∧
    calculateSurgeMultiplier 60 = 1.6 := by
  refine ⟨?_, ?_, ?_, ?_, ?_, ?_, ?_⟩
  · intro s h; rw [calculateSurgeMultiplier, if_pos h]
  · intro s h5 h10
    rw [calculateSurgeMultiplier, if_neg (by omega), if_pos h10]
  · intro s h10 h20
    rw [calculateSurgeMultiplier, if_neg (by omega), if_neg (by omega), if_pos h20]
  · intro s h20 h50
    rw [calculateSurgeMultiplier, if_neg (by omega), if_neg (by omega),
      if_neg (by omega), if_pos h50]
  · intro s h50
    rw [calculateSurgeMultiplier, if_neg (by omega), if_neg (by omega),
      if_neg (by omega), if_neg (by omega)]
  · intro a b hab
    have hab' : (a : ℚ) ≤ (b : ℚ) := by exact_mod_cast hab
    unfold calculateSurgeMultiplier
    split_ifs
    all_goals try norm_num
    all_goals try (exfalso; omega)
    all_goals try positivity
    all_goals try (right; linarith)
    all_goals
      (have h50 : (50 : ℚ) ≤ (b : ℚ) := by exact_mod_cast (by omega : (50 : ℕ) ≤ b)
       linarith)
  · rw [calculateSurgeMultiplier]
    norm_num

/-- C9 witness: the second band evaluated at queue size 7. -/
theorem calculateSurgeMultiplier_spec_witness :
    calculateSurgeMultiplier 7 = 1.1 :=
  calculateSurgeMultiplier_spec.2.1 7 (by norm_num) (by norm_num)

theorem commitBatch_eq (batch : List DbRequest) (s : Store) :
    commitBatch batch s = s := by
  rw [commitBatch]
  split
  · rfl
  · rfl

theorem workerTick_eq (s : Store) :
    workerTick s = { s with queue := s.queue.drop 5 } :=
  commitBatch_eq (dequeueBatch s).1 (dequeueBatch s).2

theorem applyOp_preserves (s : Store) (op : Op) (h : coreInv s) :
    coreInv (applyOp s op) := by
  obtain ⟨hpools, hreq⟩ := h
  cases op with
  | submit u p l =>
    show coreInv (createRideRequest u p l s).2
    rw [createRideRequest]
    split
    · exact ⟨hpools, hreq⟩
    · split
      · exact ⟨hpools, hreq⟩
      · refine ⟨hpools, ?_⟩
        intro r hr
        rcases List.mem_append.mp hr with h | h
        · exact hreq r h
        · rw [List.mem_singleton.mp h]
          exact ⟨rfl, Or.inl rfl⟩
  | tick =>
    show coreInv (workerTick s)
    rw [workerTick_eq]
    exact ⟨hpools, hreq⟩
  | cancel rid =>
    show coreInv (cancelRideRequest rid s).2
    rw [cancelRideRequest]
    cases hfind : s.requests.find? (fun r => r.rid = rid) with
    | none => exact ⟨hpools, hreq⟩
    | some r =>
      dsimp only
      split
      · exact ⟨hpools, hreq⟩
      · have hupd : ∀ r' ∈ updateById s.requests rid
            (fun q => { q with status := "cancelled" }),
            r'.poolId = none ∧ (r'.status = "pending" ∨ r'.status = "cancelled") := by
          intro r' hr'
          rw [updateById] at hr'
          obtain ⟨q, hq, rfl⟩ := List.mem_map.mp hr'
          by_cases hqr : q.rid = rid
          · rw [if_pos hqr]
            exact ⟨(hreq q hq).1, Or.inr rfl⟩
          · rw [if_neg hqr]
            exact hreq q hq
        split
        · exact ⟨hpools, hupd⟩
        · exact ⟨hpools, hupd⟩

theorem runOps_preserves (ops : List Op) (s : Store) (h : coreInv s) :
    coreInv (runOps ops s) := by
  induction ops generalizing s with
  | nil => exact h
  | cons op rest ih => exact ih (applyOp s op) (applyOp_preserves s op h)

theorem emptyStore_inv : coreInv emptyStore :=
  ⟨rfl, fun r hr => absurd hr (List.not_mem_nil r)⟩

/-- C3: after any sequence of core operations (submission, worker tick,
cancellation) from the initial state, every request whose pool reference
is set points at a stored pool whose member list contains the request's
identifier, and a request's identifier appears in at most one pool's
member list.  On this code the invariant holds degenerately: the worker's
`RidePool.create({status: "ASSIGNED"})` always fails the schema's enum
validation and the tick aborts in its catch, so no wired path ever sets a
pool reference or creates a pool — every poolId stays none. -/
theorem poolMembership_invariant (ops : List Op) :
    (∀ r ∈ (runOps ops emptyStore).requests, r.poolId = none) ∧
    (∀ r ∈ (runOps ops emptyStore).requests, ∀ pid ∈ r.poolId,
      ∃ p ∈ (runOps ops emptyStore).pools, p.pid = pid ∧ r.rid ∈ p.requests) ∧
    (∀ r ∈ (runOps ops emptyStore).requests,
      (runOps ops emptyStore).pools.countP
        (fun p => decide (r.rid ∈ p.requests)) ≤ 1) := by
  obtain ⟨hpools, hreq⟩ := runOps_preserves ops emptyStore emptyStore_inv
  refine ⟨fun r hr => (hreq r hr).1, ?_, ?_⟩
  · intro r hr pid hpid
    rw [(hreq r hr).1] at hpid
    exact absurd hpid (by simp)
  · intro r hr
    rw [hpools]
    simp

/-- C3 witness: the invariant read off after a submit–tick–cancel run, at
the concrete stored request. -/
theorem poolMembership_invariant_witness :
    (⟨0, 42, 1, 0, "cancelled", none⟩ : DbRequest).poolId = none ∧
    (runOps [Op.submit 42 1 0, Op.tick, Op.cancel 0] emptyStore).pools.countP
      (fun p => decide ((0 : ℕ) ∈ p.requests)) ≤ 1 :=
  ⟨(poolMembership_invariant [Op.submit 42 1 0, Op.tick, Op.cancel 0]).1
      ⟨0, 42, 1, 0, "cancelled", none⟩ (by decide),
   (poolMembership_invariant [Op.submit 42 1 0, Op.tick, Op.cancel 0]).2.2
      ⟨0, 42, 1, 0, "cancelled", none⟩ (by decide)⟩

/-- C4: the commit phase never overwrites a transition already performed
by a concurrent path: `RidePool.create` rejects on the schema enum and
the worker's catch ends the tick before the unguarded updateOne loop can
run, so the commit leaves every stored request document unchanged — in
particular a request cancelled while racing the same tick keeps its
Cancelled state, and no assignment write appears that was not already
present. -/
theorem commit_preserves_concurrent_transitions (s : Store)
    (batch : List DbRequest) :
    (commitBatch batch s).requests = s.requests ∧
    (∀ r ∈ s.requests, r.status = "cancelled" → r ∈ (commitBatch batch s).requests) ∧
    (∀ r ∈ (commitBatch batch s).requests, r.status = "ASSIGNED" → r ∈ s.requests) := by
  rw [commitBatch_eq]
  exact ⟨rfl, fun r hr _ => hr, fun r hr _ => hr⟩

/-- The store produced by a cancellation racing the worker tick: the
request is drained from the queue, cancelled, and only then does the
commit phase of the tick run. -/
def racedStore : Store :=
  commitBatch (dequeueBatch (createRideRequest 42 1 0 emptyStore).2).1
    (cancelRideRequest 0 (dequeueBatch (createRideRequest 42 1 0 emptyStore).2).2).2

/-- C4 witness: in the concrete race the cancelled request survives the
commit phase unchanged. -/
theorem commit_preserves_concurrent_transitions_witness :
    (⟨0, 42, 1, 0, "cancelled", none⟩ : DbRequest) ∈ racedStore.requests :=
  (commit_preserves_concurrent_transitions
      (cancelRideRequest 0 (dequeueBatch (createRideRequest 42 1 0 emptyStore).2).2).2
      (dequeueBatch (createRideRequest 42 1 0 emptyStore).2).1).2.1
    ⟨0, 42, 1, 0, "cancelled", none⟩ (by decide) (by decide)

/-- C5: cancelling a request whose stored status is "assigned" (the
status the cancellation guard treats as Assigned) returns the 409
conflict and leaves the store — request state and pool membership —
unchanged; and no state reachable by the core operations contains an
assigned request at all, because the batch cycle's commit aborts at the
rejected pool create before its assignment write (which would have used
the uppercase "ASSIGNED") can run. -/
theorem cancel_assigned_conflict (s : Store) (rid : ℕ) :
    (∀ r, s.requests.find? (fun q => q.rid = rid) = some r →
      r.status = "assigned" →
      (cancelRideRequest rid s).1 = CancelResult.conflict "assigned" ∧
      (cancelRideRequest rid s).2 = s) ∧
    (∀ ops : List Op, ∀ r ∈ (runOps ops emptyStore).requests,
      r.status ≠ "assigned" ∧ r.status ≠ "ASSIGNED") := by
  constructor
  · intro r hfind hstat
    rw [cancelRideRequest, hfind]
    dsimp only
    rw [if_pos (Or.inl hstat), hstat]
    exact ⟨rfl, rfl⟩
  · intro ops r hr
    obtain ⟨-, hreq⟩ := runOps_preserves ops emptyStore emptyStore_inv
    rcases (hreq r hr).2 with h | h <;> rw [h] <;>
      exact ⟨by decide, by decide⟩

/-- C5 witness: the conflict rejection evaluated on a store holding one
request with status "assigned". -/
theorem cancel_assigned_conflict_witness :
    (cancelRideRequest 0
        ⟨[⟨0, 42, 1, 0, "assigned", none⟩], [], [], 1, 0⟩).1 =
      CancelResult.conflict "assigned" ∧
    (cancelRideRequest 0
        ⟨[⟨0, 42, 1, 0, "assigned", none⟩], [], [], 1, 0⟩).2 =
      ⟨[⟨0, 42, 1, 0, "assigned", none⟩], [], [], 1, 0⟩ :=
  (cancel_assigned_conflict ⟨[⟨0, 42, 1, 0, "assigned", none⟩], [], [], 1, 0⟩ 0).1
    ⟨0, 42, 1, 0, "assigned", none⟩ (by decide) rfl

/-- C10 as stated is false on the code: on the store holding one freshly
submitted request the worker tick creates no pool record at all — the
`RidePool.create({status: "ASSIGNED"})` call is rejected by the RidePool
status enum and the catch swallows the error — and no request's status is
set to "ASSIGNED"; the pool count does not grow by one. -/
theorem workerTick_counterexample :
    (workerTick (createRideRequest 42 1 0 emptyStore).2).pools = [] ∧
    (workerTick (createRideRequest 42 1 0 emptyStore).2).requests.map
      DbRequest.status = ["pending"] ∧
    ¬ (workerTick (createRideRequest 42 1 0 emptyStore).2).pools.length =
        (createRideRequest 42 1 0 emptyStore).2.pools.length + 1 := by
  decide

/-- C10 amended: for every state, the worker tick drains up to five queue
entries and mutates nothing else — the pool create always rejects against
the RidePool status enum and the catch swallows the ValidationError, so
no pool record is created, no request status or pool reference is
written, pairwise compatibility is never evaluated, and the drained batch
is simply dropped. -/
theorem workerTick_drops_batch (s : Store) :
    workerTick s = { s with queue := s.queue.drop 5 } :=
  commitBatch_eq (dequeueBatch s).1 (dequeueBatch s).2

end RidePooling
